import Mathlib

/-!
Shallow embedding of `src/main.rs` of the `rust_game_of_life` repository:
a terminal toy that resizes the console, enters raw mode, seeds a sparse
200×100 grid of cells with a fixed 1% spawn chance, draws each spawned cell
as a green U+25A0 glyph, and then sleeps forever.

Modelling conventions:
* `u16` loop counters and coordinates are embedded as `Nat` (all values stay
  far below 2^16, so no wraparound occurs in the source).
* `f32` arithmetic is embedded as exact arithmetic over `ℚ`; the Rust
  `as i32` cast is truncation toward zero saturating at the `i32` bounds.
* `rand::random::<f32>()` is embedded as an oracle `samples : Nat → ℚ`,
  consumed one value per visited grid coordinate, in visiting order.
* The fallible terminal operations of `crossterm` are embedded as oracles
  returning `Except IoError Unit`; the `?` operator becomes an early return.
* Terminal output of `draw_cell` / `clear_cell` is embedded as a trace of
  events (cursor move, byte write, flush), and a screen double `ScreenState`
  interprets such traces.
-/

/-- Grid width: `const WIDTH: u16 = 200`. -/
def WIDTH : Nat := 200

/-- Grid height: `const HEIGHT: u16 = 100`. -/
def HEIGHT : Nat := 100

/-- Spawn probability: `const SPAWN_CHANCE: f32 = 1f32 / 100f32` (exact over `ℚ`). -/
def SPAWN_CHANCE : ℚ := 1 / 100

/-- Glyph bytes: `const CELL: &[u8] = &[0xE2, 0x96, 0xA0]`. -/
def CELL : List Nat := [0xE2, 0x96, 0xA0]

/-- `struct Cell(u16, u16)`; the positional fields `.0`/`.1` are named `x`/`y`. -/
structure Cell where
  x : Nat
  y : Nat
deriving DecidableEq, Repr

/-- `Cell(x, y)` built from a coordinate pair. -/
def cellOfPair (p : Nat × Nat) : Cell := Cell.mk p.1 p.2

/-- Rust `as i32` on a (nonnegative or negative) real value: truncation toward
zero, saturating at the `i32` bounds. -/
def truncToI32 (q : ℚ) : Int :=
  max (-2147483648) (min 2147483647 (if 0 ≤ q then ⌊q⌋ else ⌈q⌉))

/-- The integer spawn threshold `(SPAWN_CHANCE * 100f32) as i32` from line 141,
generalized over the configured chance. -/
def spawnThreshold (chance : ℚ) : Int := truncToI32 (chance * 100)

/-- One iteration's spawn decision, lines 140-141:
`let rng = (rand::random::<f32>() * 100f32) as i32; let spawn = rng < (SPAWN_CHANCE * 100f32) as i32;`
where `sample` is the raw value returned by `rand::random::<f32>()`. -/
def spawnDecision (chance : ℚ) (sample : ℚ) : Bool :=
  decide (truncToI32 (sample * 100) < spawnThreshold chance)

/-- The coordinate visiting order of the nested seeding loops, lines 138-139:
`for x in 0..WIDTH { for y in 0..HEIGHT { ... } }`. -/
def seedCoords (w h : Nat) : List (Nat × Nat) :=
  (List.range w).flatMap (fun x => (List.range h).map (fun y => (x, y)))

/-- Strict lexicographic order on coordinate pairs (`x` major, `y` minor). -/
def lexLtPair (p q : Nat × Nat) : Prop :=
  p.1 < q.1 ∨ (p.1 = q.1 ∧ p.2 < q.2)

instance (p q : Nat × Nat) : Decidable (lexLtPair p q) := by
  unfold lexLtPair
  infer_instance

/-- Strict lexicographic order on cells. -/
def cellLexLt (c d : Cell) : Prop :=
  c.x < d.x ∨ (c.x = d.x ∧ c.y < d.y)

/-- The `cells` vector produced by the seeding loop of lines 138-150 over a
given coordinate list, when every `draw_cell` call succeeds; `i` is the index
into the random-sample oracle (one sample per visited coordinate). -/
def seedPure (chance : ℚ) (samples : Nat → ℚ) : List (Nat × Nat) → Nat → List Cell
  | [], _ => []
  | p :: rest, i =>
    if spawnDecision chance (samples i) then
      cellOfPair p :: seedPure chance samples rest (i + 1)
    else
      seedPure chance samples rest (i + 1)

/-- The full seeding pass over the whole grid (success path). -/
def seedCells (chance : ℚ) (samples : Nat → ℚ) : List Cell :=
  seedPure chance samples (seedCoords WIDTH HEIGHT) 0

/-- The `cells` vector after the first `n` coordinates of the scan have been
processed (intermediate state of the seeding loop). -/
def cellsAfter (chance : ℚ) (samples : Nat → ℚ) (n : Nat) : List Cell :=
  seedPure chance samples ((seedCoords WIDTH HEIGHT).take n) 0

/-- A generic I/O-style error value (`crossterm::ErrorKind` is opaque here). -/
structure IoError where
  code : Nat
deriving DecidableEq, Repr

/-- Outcome of the seeding loop: normal completion with the final `cells`
vector, or an early `?`-return carrying the error and the `cells` vector as it
stood at that moment. -/
inductive SeedOutcome where
  | ok (cells : List Cell)
  | err (e : IoError) (cells : List Cell)
deriving DecidableEq, Repr

/-- The seeding loop of lines 138-150 with a fallible `draw_cell` oracle:
a spawned cell is drawn first (`draw_cell(&mut terminal, &cell)?`) and only
appended to `cells` afterwards (`cells.push(cell)`). -/
def runSeedAux (chance : ℚ) (samples : Nat → ℚ) (draw : Cell → Except IoError Unit) :
    List (Nat × Nat) → Nat → List Cell → SeedOutcome
  | [], _, acc => SeedOutcome.ok acc
  | p :: rest, i, acc =>
    if spawnDecision chance (samples i) then
      match draw (cellOfPair p) with
      | Except.error e => SeedOutcome.err e acc
      | Except.ok _ => runSeedAux chance samples draw rest (i + 1) (acc ++ [cellOfPair p])
    else
      runSeedAux chance samples draw rest (i + 1) acc

/-- The whole seeding pass of `main`, lines 138-150. -/
def runSeed (chance : ℚ) (samples : Nat → ℚ) (draw : Cell → Except IoError Unit) : SeedOutcome :=
  runSeedAux chance samples draw (seedCoords WIDTH HEIGHT) 0 []

/-- The terminal control operations performed by `init_term`, lines 103-113,
in source order: `enable_raw_mode()`, then queued `SetSize`, `Clear(All)`,
`SetForegroundColor(Green)`, `SetAttribute(NoBlink)`, `cursor::Hide`,
`DisableLineWrap`, and the final `flush()`. -/
inductive TermOp where
  | enableRawMode
  | setSize
  | clearAll
  | setForegroundColor
  | setAttrNoBlink
  | hideCursor
  | disableLineWrap
  | flushOut
deriving DecidableEq, Repr

/-- The operations of `init_term` in the order the source performs them. -/
def initTermOps : List TermOp :=
  [TermOp.enableRawMode, TermOp.setSize, TermOp.clearAll, TermOp.setForegroundColor,
   TermOp.setAttrNoBlink, TermOp.hideCursor, TermOp.disableLineWrap, TermOp.flushOut]

/-- Runs a list of fallible terminal operations left to right, stopping at the
first failure (the `?` operator); returns the result together with the list of
operations that were actually applied to the terminal (no rollback is ever
performed on the applied ones). -/
def runTermOps (oracle : TermOp → Except IoError Unit) :
    List TermOp → List TermOp → Except IoError Unit × List TermOp
  | [], applied => (Except.ok (), applied)
  | op :: rest, applied =>
    match oracle op with
    | Except.error e => (Except.error e, applied)
    | Except.ok _ => runTermOps oracle rest (applied ++ [op])

/-- `init_term`, lines 103-113: performs the terminal setup operations in
order, propagating the first failure with `?`. -/
def init_term (oracle : TermOp → Except IoError Unit) : Except IoError Unit × List TermOp :=
  runTermOps oracle initTermOps []

/-- How `main` ends: an early return with a propagated `Result` (only the
error case is reachable), or divergence in the final idle loop. -/
inductive MainResult where
  | returns (r : Except IoError Unit)
  | diverges
deriving Repr

/-- `fn main`, lines 130-154: init terminal (propagating failure with `?`),
run the seeding pass (propagating `draw_cell` failure with `?`), then loop
forever; paired with the final value of the `cells` vector. `init_window` is
Windows-only and aborts the process itself rather than returning, so it is
modelled separately (see `init_window` below). Lean reserves the name `main`
for an `IO` entry point, hence the prime. -/
def main' (termOracle : TermOp → Except IoError Unit) (samples : Nat → ℚ)
    (drawOracle : Cell → Except IoError Unit) : MainResult × List Cell :=
  match (init_term termOracle).1 with
  | Except.error e => (MainResult.returns (Except.error e), [])
  | Except.ok _ =>
    match runSeed SPAWN_CHANCE samples drawOracle with
    | SeedOutcome.err e cells => (MainResult.returns (Except.error e), cells)
    | SeedOutcome.ok cells => (MainResult.diverges, cells)

/-- Modelled from the spec: the process exit status implied by `main`'s
`Result<()>` return type ("any setup error returns a propagated error causing
nonzero exit"); `none` when `main` never returns. -/
def processExitCode : MainResult → Option Nat
  | MainResult.returns (Except.ok _) => some 0
  | MainResult.returns (Except.error _) => some 1
  | MainResult.diverges => none

/-- One iteration of the final idle loop, lines 151-153: the state is the
`cells` vector (untouched) and the total milliseconds slept;
`std::thread::sleep(Duration::from_millis(1000))` adds 1000. -/
def idleStep (s : List Cell × Nat) : List Cell × Nat :=
  (s.1, s.2 + 1000)

/-- The idle loop after `n` iterations. -/
def idleRun (s : List Cell × Nat) : Nat → List Cell × Nat
  | 0 => s
  | n + 1 => idleStep (idleRun s n)

/-- A terminal output event: a queued cursor move, a byte write, or a flush. -/
inductive TermEvent where
  | moveTo (x y : Nat)
  | write (bytes : List Nat)
  | flushEv
deriving DecidableEq, Repr

/-- `draw_cell`, lines 115-120 (success path): queue `MoveTo(cell.0, cell.1)`,
write the `CELL` glyph bytes, flush immediately. -/
def draw_cell (c : Cell) : List TermEvent :=
  [TermEvent.moveTo c.x c.y, TermEvent.write CELL, TermEvent.flushEv]

/-- `clear_cell`, lines 122-127 (success path): queue `MoveTo(cell.0, cell.1)`,
write the single space byte `b" "`, flush immediately. -/
def clear_cell (c : Cell) : List TermEvent :=
  [TermEvent.moveTo c.x c.y, TermEvent.write [0x20], TermEvent.flushEv]

/-- A terminal screen double: cursor position and the bytes last written at
each character position. -/
structure ScreenState where
  cursor : Nat × Nat
  buf : Nat × Nat → List Nat

/-- Interpretation of one output event on the screen double. -/
def applyEvent (s : ScreenState) : TermEvent → ScreenState
  | TermEvent.moveTo x y => ScreenState.mk (x, y) s.buf
  | TermEvent.write bytes =>
    ScreenState.mk s.cursor (fun p => if p = s.cursor then bytes else s.buf p)
  | TermEvent.flushEv => s

/-- Interpretation of an event trace on the screen double. -/
def applyEvents (s : ScreenState) (evs : List TermEvent) : ScreenState :=
  evs.foldl applyEvent s

/-- The 3-byte UTF-8 encoding of a code point in `[0x800, 0xFFFF]`. -/
def utf8Encode3 (cp : Nat) : List Nat :=
  [0xE0 + cp / 4096, 0x80 + (cp / 64) % 64, 0x80 + cp % 64]

/-- `CONSOLE_SCREEN_BUFFER_INFO.dwSize` (the only field the source uses);
`COORD` fields are `i16`, embedded as `Int`. -/
structure ScreenBufferInfo where
  sizeX : Int
  sizeY : Int
deriving DecidableEq, Repr

/-- Oracle for the Win32 calls made by `init_window`: whether each call would
succeed, and the screen-buffer info a successful
`GetConsoleScreenBufferInfo` would write through its out-pointer. -/
structure WinApi where
  showScrollBarOk : Bool
  getInfoOk : Bool
  bufferInfo : ScreenBufferInfo
  setSizeOk : Bool
deriving DecidableEq, Repr

/-- `GetConsoleScreenBufferInfo(stdout, p)` where the out-pointer `p` is
embedded as `Option Unit` (`none` = `std::ptr::null_mut()`): with a null
out-pointer the call writes nothing and fails (returns 0); with a valid
pointer it succeeds per the oracle and yields the info that was written. -/
def getConsoleScreenBufferInfo (api : WinApi) (p : Option Unit) :
    Int × Option ScreenBufferInfo :=
  match p with
  | none => (0, none)
  | some _ => if api.getInfoOk then (1, some api.bufferInfo) else (0, none)

/-- Outcome of `init_window`: an `assert_win32_err!` abort at one of the three
checked calls, a null-pointer dereference (undefined behaviour), or successful
completion with the size passed to `SetConsoleScreenBufferSize`. -/
inductive WinOutcome where
  | abortScrollBar
  | abortGetInfo
  | nullDeref
  | abortSetSize
  | resized (x y : Int)
deriving DecidableEq, Repr

/-- `init_window`, lines 78-101: hide the vertical scrollbar, call
`GetConsoleScreenBufferInfo` with `info = std::ptr::null_mut()` (line 88),
abort if the call failed, then build `new_size = ((*info).dwSize.X - 2,
(*info).dwSize.Y)` and call `SetConsoleScreenBufferSize`. -/
def init_window (api : WinApi) : WinOutcome :=
  let r1 : Int := if api.showScrollBarOk then 1 else 0
  if r1 = 0 then WinOutcome.abortScrollBar
  else
    let info : Option Unit := none
    let res := getConsoleScreenBufferInfo api info
    if res.1 = 0 then WinOutcome.abortGetInfo
    else
      match res.2 with
      | none => WinOutcome.nullDeref
      | some sbi =>
        let newX := sbi.sizeX - 2
        let newY := sbi.sizeY
        let r3 : Int := if api.setSizeOk then 1 else 0
        if r3 = 0 then WinOutcome.abortSetSize else WinOutcome.resized newX newY

/-! ### Helper lemmas about the coordinate scan -/

theorem seedCoords_succ (w h : Nat) :
    seedCoords (w + 1) h = seedCoords w h ++ (List.range h).map (fun y => (w, y)) := by
  simp [seedCoords, List.range_succ]

theorem mem_seedCoords {w h : Nat} {p : Nat × Nat} :
    p ∈ seedCoords w h ↔ p.1 < w ∧ p.2 < h := by
  constructor
  · intro hp
    simp only [seedCoords, List.mem_flatMap, List.mem_map, List.mem_range] at hp
    obtain ⟨a, ha, y, hy, rfl⟩ := hp
    exact ⟨ha, hy⟩
  · intro ⟨h1, h2⟩
    simp only [seedCoords, List.mem_flatMap, List.mem_map, List.mem_range]
    exact ⟨p.1, h1, p.2, h2, rfl⟩

theorem nodup_seedCoords (w h : Nat) : (seedCoords w h).Nodup := by
  rw [seedCoords, List.nodup_flatMap]
  refine ⟨fun x _ => ?_, ?_⟩
  · exact (List.nodup_range h).map (fun a b hab => by simpa using hab)
  · refine (List.pairwise_lt_range w).imp ?_
    intro a b hab
    intro p hp hq
    simp only [List.mem_map, List.mem_range] at hp hq
    obtain ⟨y1, _, rfl⟩ := hp
    obtain ⟨y2, _, he⟩ := hq
    exact absurd (congrArg Prod.fst he).symm (Nat.ne_of_lt hab)

theorem count_one_of_nodup_of_mem {α : Type} [BEq α] [LawfulBEq α] {l : List α} {a : α}
    (d : l.Nodup) (h : a ∈ l) : l.count a = 1 := by
  induction l with
  | nil => cases h
  | cons b l ih =>
    rw [List.nodup_cons] at d
    rw [List.count_cons]
    rcases List.mem_cons.mp h with rfl | hmem
    · have h0 : l.count a = 0 := List.count_eq_zero.mpr d.1
      simp [h0]
    · have hba : ¬ (b == a) = true := by
        intro hc
        exact d.1 (eq_of_beq hc ▸ hmem)
      rw [ih d.2 hmem]
      simp [hba]

theorem count_seedCoords {w h : Nat} {p : Nat × Nat} (h1 : p.1 < w) (h2 : p.2 < h) :
    (seedCoords w h).count p = 1 :=
  count_one_of_nodup_of_mem (nodup_seedCoords w h) (mem_seedCoords.mpr ⟨h1, h2⟩)

theorem pairwise_seedCoords (w h : Nat) : List.Pairwise lexLtPair (seedCoords w h) := by
  induction w with
  | zero => simp [seedCoords]
  | succ w ih =>
    rw [seedCoords_succ, List.pairwise_append]
    refine ⟨ih, ?_, ?_⟩
    · rw [List.pairwise_map]
      exact (List.pairwise_lt_range h).imp (fun hab => Or.inr ⟨rfl, hab⟩)
    · intro a ha b hb
      have ha1 : a.1 < w := (mem_seedCoords.mp ha).1
      have hb1 : b.1 = w := by
        simp only [List.mem_map, List.mem_range] at hb
        obtain ⟨y, _, rfl⟩ := hb
        rfl
      exact Or.inl (hb1 ▸ ha1)

theorem length_seedCoords (w h : Nat) : (seedCoords w h).length = w * h := by
  induction w with
  | zero => simp [seedCoords]
  | succ w ih =>
    rw [seedCoords_succ]
    simp [ih, Nat.succ_mul]

/-! ### Helper lemmas about truncation and the spawn decision -/

theorem truncToI32_of_nonneg {q : ℚ} (h0 : 0 ≤ q) (h1 : q < 1000) :
    truncToI32 q = ⌊q⌋ := by
  have hl : 0 ≤ ⌊q⌋ := Int.floor_nonneg.mpr h0
  have hu : ⌊q⌋ < 1000 := Int.floor_lt.mpr (by exact_mod_cast h1)
  rw [truncToI32, if_pos h0, min_eq_right (by omega), max_eq_right (by omega)]

theorem spawnThreshold_default : spawnThreshold SPAWN_CHANCE = 1 := by
  have h : SPAWN_CHANCE * 100 = 1 := by norm_num [SPAWN_CHANCE]
  rw [spawnThreshold, h, truncToI32_of_nonneg (by norm_num) (by norm_num), Int.floor_one]

theorem spawnThreshold_full : spawnThreshold 1 = 100 := by
  have h : (1 : ℚ) * 100 = ((100 : Int) : ℚ) := by norm_num
  rw [spawnThreshold, h, truncToI32_of_nonneg (by norm_num) (by norm_num), Int.floor_intCast]

theorem spawnDecision_eq_decide {chance s : ℚ} (h0 : 0 ≤ s) (h1 : s < 100) :
    spawnDecision chance (s / 100) = decide (s < (spawnThreshold chance : ℚ)) := by
  have hs : s / 100 * 100 = s := div_mul_cancel₀ s (by norm_num)
  rw [spawnDecision, hs, truncToI32_of_nonneg h0 (by linarith)]
  by_cases hlt : s < (spawnThreshold chance : ℚ)
  · rw [decide_eq_true (Int.floor_lt.mpr hlt), decide_eq_true hlt]
  · have : ¬ ⌊s⌋ < spawnThreshold chance := fun hc => hlt (Int.floor_lt.mp hc)
    rw [decide_eq_false this, decide_eq_false hlt]

theorem spawnDecision_iff {chance s : ℚ} (h0 : 0 ≤ s) (h1 : s < 100) :
    spawnDecision chance (s / 100) = true ↔ s < (spawnThreshold chance : ℚ) := by
  rw [spawnDecision_eq_decide h0 h1, decide_eq_true_iff]

theorem spawnDecision_full {r : ℚ} (h0 : 0 ≤ r) (h1 : r < 1) :
    spawnDecision 1 r = true := by
  rw [spawnDecision, decide_eq_true_iff, spawnThreshold_full,
    truncToI32_of_nonneg (by positivity) (by linarith)]
  exact Int.floor_lt.mpr (by push_cast; linarith)

theorem spawnThreshold_zero_of_lt {chance : ℚ} (h0 : 0 ≤ chance) (h1 : chance < 1 / 100) :
    spawnThreshold chance = 0 := by
  rw [spawnThreshold, truncToI32_of_nonneg (by positivity) (by linarith)]
  rw [Int.floor_eq_zero_iff]
  constructor
  · positivity
  · simpa using by linarith

theorem spawnDecision_false_of_threshold_zero {chance r : ℚ}
    (ht : spawnThreshold chance = 0) (h0 : 0 ≤ r) :
    spawnDecision chance r = false := by
  rw [spawnDecision, ht, decide_eq_false_iff_not]
  intro hc
  have : (0 : Int) ≤ truncToI32 (r * 100) := by
    rw [truncToI32, if_pos (by positivity)]
    have : 0 ≤ ⌊r * 100⌋ := Int.floor_nonneg.mpr (by positivity)
    omega
  omega

theorem spawnDecision_zero_sample : spawnDecision SPAWN_CHANCE 0 = true := by
  have h : (0 : ℚ) = 0 / 100 := by norm_num
  rw [h, spawnDecision_eq_decide (by norm_num) (by norm_num), spawnThreshold_default]
  norm_num

/-! ### Helper lemmas about the seeding loop -/

theorem seedPure_append (chance : ℚ) (samples : Nat → ℚ) (l1 l2 : List (Nat × Nat)) (i : Nat) :
    seedPure chance samples (l1 ++ l2) i =
      seedPure chance samples l1 i ++ seedPure chance samples l2 (i + l1.length) := by
  induction l1 generalizing i with
  | nil => simp [seedPure]
  | cons p rest ih =>
    have harith : i + 1 + rest.length = i + (rest.length + 1) := by omega
    by_cases hs : spawnDecision chance (samples i) = true
    · simp [seedPure, hs, ih, harith]
    · simp [seedPure, hs, ih, harith]

theorem seedPure_sublist (chance : ℚ) (samples : Nat → ℚ) (l : List (Nat × Nat)) (i : Nat) :
    (seedPure chance samples l i).Sublist (l.map cellOfPair) := by
  induction l generalizing i with
  | nil => simp [seedPure]
  | cons p rest ih =>
    by_cases hs : spawnDecision chance (samples i) = true
    · simpa [seedPure, hs] using (ih (i + 1)).cons₂ (cellOfPair p)
    · simpa [seedPure, hs] using (ih (i + 1)).cons (cellOfPair p)

theorem seedPure_all_spawn {chance : ℚ} {samples : Nat → ℚ}
    (hall : ∀ j, spawnDecision chance (samples j) = true) (l : List (Nat × Nat)) (i : Nat) :
    seedPure chance samples l i = l.map cellOfPair := by
  induction l generalizing i with
  | nil => simp [seedPure]
  | cons p rest ih => simp [seedPure, hall i, ih]

theorem seedPure_no_spawn {chance : ℚ} {samples : Nat → ℚ}
    (hnone : ∀ j, spawnDecision chance (samples j) = false) (l : List (Nat × Nat)) (i : Nat) :
    seedPure chance samples l i = [] := by
  induction l generalizing i with
  | nil => simp [seedPure]
  | cons p rest ih => simp [seedPure, hnone i, ih]

theorem cellOfPair_injective : Function.Injective cellOfPair := by
  intro a b hab
  have hx := congrArg Cell.x hab
  have hy := congrArg Cell.y hab
  exact Prod.ext hx hy

theorem mem_seedPure_bounds {chance : ℚ} {samples : Nat → ℚ} {l : List (Nat × Nat)} {i : Nat}
    {c : Cell} (hc : c ∈ seedPure chance samples l i) (hl : ∀ p ∈ l, p.1 < WIDTH ∧ p.2 < HEIGHT) :
    c.x < WIDTH ∧ c.y < HEIGHT := by
  have hmem : c ∈ l.map cellOfPair := (seedPure_sublist chance samples l i).subset hc
  obtain ⟨p, hp, rfl⟩ := List.mem_map.mp hmem
  exact hl p hp

theorem pairwise_seedPure {chance : ℚ} {samples : Nat → ℚ} {l : List (Nat × Nat)} {i : Nat}
    (hl : List.Pairwise lexLtPair l) :
    List.Pairwise cellLexLt (seedPure chance samples l i) := by
  refine List.Pairwise.sublist (seedPure_sublist chance samples l i) ?_
  rw [List.pairwise_map]
  exact hl.imp (fun hab => hab)

theorem runSeedAux_ok {chance : ℚ} {samples : Nat → ℚ} {draw : Cell → Except IoError Unit}
    (hdraw : ∀ c, draw c = Except.ok ()) (l : List (Nat × Nat)) (i : Nat) (acc : List Cell) :
    runSeedAux chance samples draw l i acc = SeedOutcome.ok (acc ++ seedPure chance samples l i) := by
  induction l generalizing i acc with
  | nil => simp [runSeedAux, seedPure]
  | cons p rest ih =>
    by_cases hs : spawnDecision chance (samples i) = true
    · simp [runSeedAux, seedPure, hs, hdraw, ih]
    · simp [runSeedAux, seedPure, hs, ih]

theorem runSeedAux_err {chance : ℚ} {samples : Nat → ℚ} {draw : Cell → Except IoError Unit}
    {e : IoError} :
    ∀ (l : List (Nat × Nat)) (k i : Nat) (acc : List Cell) (p : Nat × Nat),
      l[k]? = some p →
      spawnDecision chance (samples (i + k)) = true →
      draw (cellOfPair p) = Except.error e →
      (∀ j q, j < k → l[j]? = some q → spawnDecision chance (samples (i + j)) = true →
        draw (cellOfPair q) = Except.ok ()) →
      runSeedAux chance samples draw l i acc =
        SeedOutcome.err e (acc ++ seedPure chance samples (l.take k) i) := by
  intro l
  induction l with
  | nil => intro k i acc p hp; simp at hp
  | cons p0 rest ih =>
    intro k i acc p hp hsp hdr hpre
    cases k with
    | zero =>
      rw [List.getElem?_cons_zero] at hp
      injection hp with hp
      subst hp
      rw [Nat.add_zero] at hsp
      simp [runSeedAux, hsp, hdr, seedPure]
    | succ k =>
      rw [List.getElem?_cons_succ] at hp
      have harith : i + (k + 1) = (i + 1) + k := by omega
      rw [harith] at hsp
      have hpre' : ∀ j q, j < k → rest[j]? = some q →
          spawnDecision chance (samples ((i + 1) + j)) = true →
          draw (cellOfPair q) = Except.ok () := by
        intro j q hj hq hs
        have harith2 : (i + 1) + j = i + (j + 1) := by omega
        rw [harith2] at hs
        exact hpre (j + 1) q (by omega) (by rw [List.getElem?_cons_succ]; exact hq) hs
      by_cases hs0 : spawnDecision chance (samples i) = true
      · have hdr0 : draw (cellOfPair p0) = Except.ok () := by
          refine hpre 0 p0 (by omega) (List.getElem?_cons_zero) ?_
          rw [Nat.add_zero]
          exact hs0
        rw [List.take_succ_cons]
        simp only [runSeedAux, hs0, if_pos, hdr0]
        rw [ih k (i + 1) (acc ++ [cellOfPair p0]) p hp hsp hdr hpre']
        simp [seedPure, hs0]
      · rw [List.take_succ_cons]
        simp only [runSeedAux, hs0, if_neg, Bool.false_eq_true]
        rw [ih k (i + 1) acc p hp hsp hdr hpre']
        simp [seedPure, hs0]

theorem seedCoords_head {w h : Nat} (hw : 0 < w) (hh : 0 < h) :
    (seedCoords w h)[0]? = some (0, 0) := by
  obtain ⟨w', rfl⟩ : ∃ w', w = w' + 1 := ⟨w - 1, by omega⟩
  obtain ⟨h', rfl⟩ : ∃ h', h = h' + 1 := ⟨h - 1, by omega⟩
  rw [seedCoords, List.range_succ_eq_map, List.flatMap_cons,
    List.range_succ_eq_map, List.map_cons, List.cons_append,
    List.getElem?_cons_zero]

theorem not_mem_map_take_of_pairwise {l : List (Nat × Nat)} (hpw : List.Pairwise lexLtPair l)
    {k : Nat} {p : Nat × Nat} (hp : l[k]? = some p) :
    cellOfPair p ∉ (l.take k).map cellOfPair := by
  obtain ⟨hk, hget⟩ := List.getElem?_eq_some_iff.mp hp
  intro hmem
  obtain ⟨q, hq, he⟩ := List.mem_map.mp hmem
  have hqp : q = p := cellOfPair_injective he
  subst hqp
  obtain ⟨⟨j, hj⟩, hgetj⟩ := List.mem_iff_get.mp hq
  have hjk : j < k := lt_of_lt_of_le hj (by simp [List.length_take])
  have hjl : j < l.length := lt_trans hjk hk
  have hgetj' : l[j] = q := by
    rw [List.get_eq_getElem] at hgetj
    rw [← hgetj]
    exact (List.getElem_take l).symm
  rw [List.pairwise_iff_get] at hpw
  have hlex := hpw ⟨j, hjl⟩ ⟨k, hk⟩ (by exact hjk)
  simp only [List.get_eq_getElem, hgetj', hget] at hlex
  rcases hlex with h1 | ⟨_, h3⟩
  · exact lt_irrefl _ h1
  · exact lt_irrefl _ h3

/-! ### Helper lemmas about terminal initialization and the idle loop -/

theorem runTermOps_ok {oracle : TermOp → Except IoError Unit}
    (h : ∀ op, oracle op = Except.ok ()) :
    ∀ (ops applied : List TermOp), runTermOps oracle ops applied = (Except.ok (), applied ++ ops) := by
  intro ops
  induction ops with
  | nil => intro applied; simp [runTermOps]
  | cons op rest ih => intro applied; simp [runTermOps, h, ih]

theorem runTermOps_err {oracle : TermOp → Except IoError Unit} {e : IoError} :
    ∀ (ops : List TermOp) (k : Nat) (applied : List TermOp) (op : TermOp),
      ops[k]? = some op →
      oracle op = Except.error e →
      (∀ j q, j < k → ops[j]? = some q → oracle q = Except.ok ()) →
      runTermOps oracle ops applied = (Except.error e, applied ++ ops.take k) := by
  intro ops
  induction ops with
  | nil => intro k applied op hop; simp at hop
  | cons op0 rest ih =>
    intro k applied op hop herr hpre
    cases k with
    | zero =>
      rw [List.getElem?_cons_zero] at hop
      injection hop with hop
      subst hop
      simp [runTermOps, herr]
    | succ k =>
      rw [List.getElem?_cons_succ] at hop
      have hok0 : oracle op0 = Except.ok () :=
        hpre 0 op0 (by omega) List.getElem?_cons_zero
      have hpre' : ∀ j q, j < k → rest[j]? = some q → oracle q = Except.ok () := by
        intro j q hj hq
        exact hpre (j + 1) q (by omega) (by rw [List.getElem?_cons_succ]; exact hq)
      rw [List.take_succ_cons]
      simp only [runTermOps, hok0]
      rw [ih k (applied ++ [op0]) op hop herr hpre']
      simp

theorem init_term_ok {oracle : TermOp → Except IoError Unit}
    (h : ∀ op, oracle op = Except.ok ()) :
    init_term oracle = (Except.ok (), initTermOps) := by
  rw [init_term, runTermOps_ok h]
  simp

theorem idleRun_closed (cells : List Cell) (t0 : Nat) :
    ∀ n, idleRun (cells, t0) n = (cells, t0 + 1000 * n) := by
  intro n
  induction n with
  | zero => simp [idleRun]
  | succ n ih =>
    rw [idleRun, ih, idleStep]
    refine Prod.ext rfl ?_
    simp [Nat.mul_succ]
    omega

theorem main'_diverges {termO : TermOp → Except IoError Unit} {samples : Nat → ℚ}
    {drawO : Cell → Except IoError Unit}
    (hterm : ∀ op, termO op = Except.ok ()) (hdraw : ∀ c, drawO c = Except.ok ()) :
    main' termO samples drawO = (MainResult.diverges, seedCells SPAWN_CHANCE samples) := by
  have h1 : (init_term termO).1 = Except.ok () := by rw [init_term_ok hterm]
  have h2 : runSeed SPAWN_CHANCE samples drawO = SeedOutcome.ok (seedCells SPAWN_CHANCE samples) := by
    rw [runSeed, runSeedAux_ok hdraw]
    simp [seedCells]
  rw [main']
  rw [h1, h2]

/-! ### Claim theorems -/

/-- C1: The seeding pass visits every coordinate `(x, y)` with `x < 200` and
`y < 100` exactly once, in row-minor order (outer loop over `x`, inner loop
over `y`): the visit list contains exactly the in-bounds coordinates, each
with multiplicity one, and is strictly increasing in lexicographic `(x, y)`
order, so the spawn decision is evaluated exactly once per coordinate. -/
theorem seeding_visits_each_coordinate_once_in_order :
    (∀ p : Nat × Nat, p ∈ seedCoords WIDTH HEIGHT ↔ (p.1 < WIDTH ∧ p.2 < HEIGHT))
    ∧ (∀ p : Nat × Nat, p.1 < WIDTH → p.2 < HEIGHT → (seedCoords WIDTH HEIGHT).count p = 1)
    ∧ List.Pairwise lexLtPair (seedCoords WIDTH HEIGHT) :=
  ⟨fun _ => mem_seedCoords,
   fun _ h1 h2 => count_seedCoords h1 h2,
   pairwise_seedCoords WIDTH HEIGHT⟩

/-- C1 witness: coordinate `(5, 7)` is visited, exactly once. -/
theorem seeding_visits_each_coordinate_once_in_order_witness :
    (seedCoords WIDTH HEIGHT).count (5, 7) = 1 :=
  seeding_visits_each_coordinate_once_in_order.2.1 (5, 7) (by decide) (by decide)

/-- C2: For every coordinate the seeder draws a uniform sample in `[0, 100)`
(the value `rand::random::<f32>() * 100f32`, here `s` with raw random value
`s / 100`) and spawns exactly when that sample is below the configured
threshold; the default threshold is 1 (i.e. 1%); a stubbed sample of `0.5`
truncates to `0` and spawns since `0 < 1`, while a sample of `50` does not. -/
theorem spawn_iff_sample_below_threshold :
    (∀ chance s : ℚ, 0 ≤ s → s < 100 →
      (spawnDecision chance (s / 100) = true ↔ s < (spawnThreshold chance : ℚ)))
    ∧ spawnThreshold SPAWN_CHANCE = 1
    ∧ spawnDecision SPAWN_CHANCE (1 / 2 / 100) = true
    ∧ spawnDecision SPAWN_CHANCE (50 / 100) = false := by
  refine ⟨fun chance s h0 h1 => spawnDecision_iff h0 h1, spawnThreshold_default, ?_, ?_⟩
  · rw [spawnDecision_iff (by norm_num) (by norm_num), spawnThreshold_default]
    norm_num
  · rw [spawnDecision_eq_decide (by norm_num) (by norm_num), spawnThreshold_default]
    norm_num

/-- C2 witness: the spawn criterion at the concrete sample `0.5` (raw random
value `1/200`), which spawns under the default 1% chance. -/
theorem spawn_iff_sample_below_threshold_witness :
    ((1 : ℚ) / 2 < (spawnThreshold SPAWN_CHANCE : ℚ)) ↔
      spawnDecision SPAWN_CHANCE (1 / 2 / 100) = true :=
  (spawn_iff_sample_below_threshold.1 SPAWN_CHANCE (1 / 2) (by norm_num) (by norm_num)).symm

/-- C3: with the spawn chance forced to 100% (`SPAWN_CHANCE = 1.0`), for every
sequence of random samples in `[0, 1)` the resulting cell sequence is exactly
the scan-order coordinate list, hence contains each of the 200×100 grid
coordinates exactly once, in scan order. -/
theorem full_spawn_chance_yields_every_coordinate :
    ∀ samples : Nat → ℚ, (∀ i, 0 ≤ samples i ∧ samples i < 1) →
      seedCells 1 samples = (seedCoords WIDTH HEIGHT).map cellOfPair
      ∧ (∀ p : Nat × Nat, p.1 < WIDTH → p.2 < HEIGHT →
          (seedCells 1 samples).count (cellOfPair p) = 1)
      ∧ List.Pairwise cellLexLt (seedCells 1 samples) := by
  intro samples hs
  have hall : ∀ j, spawnDecision 1 (samples j) = true :=
    fun j => spawnDecision_full (hs j).1 (hs j).2
  have heq : seedCells 1 samples = (seedCoords WIDTH HEIGHT).map cellOfPair := by
    rw [seedCells, seedPure_all_spawn hall]
  refine ⟨heq, ?_, ?_⟩
  · intro p h1 h2
    rw [heq]
    refine count_one_of_nodup_of_mem ?_ ?_
    · exact (nodup_seedCoords WIDTH HEIGHT).map cellOfPair_injective
    · exact List.mem_map_of_mem cellOfPair (mem_seedCoords.mpr ⟨h1, h2⟩)
  · rw [seedCells]
    exact pairwise_seedPure (pairwise_seedCoords WIDTH HEIGHT)

/-- C3 witness: with all samples equal to 0, the cell sequence is the full
scan-order coordinate list. -/
theorem full_spawn_chance_yields_every_coordinate_witness :
    seedCells 1 (fun _ => 0) = (seedCoords WIDTH HEIGHT).map cellOfPair :=
  (full_spawn_chance_yields_every_coordinate (fun _ => 0)
    (fun _ => ⟨le_refl 0, by norm_num⟩)).1

/-- C4: `draw_cell` moves the cursor to the cell's position and writes the
fixed 3-byte UTF-8 glyph U+25A0 (bytes `0xE2 0x96 0xA0`), `clear_cell` moves
the cursor to the same position and writes a single space byte, each flushing
immediately after the write (the flush event directly follows the write event
in the trace); on the screen double, clearing after drawing restores a space
at that position — the symmetric inverse of drawing. -/
theorem draw_cell_clear_cell_inverse :
    ∀ (c : Cell) (s : ScreenState),
      draw_cell c = [TermEvent.moveTo c.x c.y, TermEvent.write CELL, TermEvent.flushEv]
      ∧ clear_cell c = [TermEvent.moveTo c.x c.y, TermEvent.write [0x20], TermEvent.flushEv]
      ∧ CELL = utf8Encode3 0x25A0
      ∧ (applyEvents s (draw_cell c)).buf (c.x, c.y) = CELL
      ∧ (applyEvents s (clear_cell c)).buf (c.x, c.y) = [0x20]
      ∧ (applyEvents (applyEvents s (draw_cell c)) (clear_cell c)).buf (c.x, c.y) = [0x20] := by
  intro c s
  refine ⟨rfl, rfl, by decide, ?_, ?_, ?_⟩
  · simp [draw_cell, applyEvents, applyEvent]
  · simp [clear_cell, applyEvents, applyEvent]
  · simp [draw_cell, clear_cell, applyEvents, applyEvent]

/-- C5: if the `k`-th terminal control operation of `init_term` fails (all
earlier ones succeeding), `init_term` returns that error; the error
propagates to `main`'s return value, the process exit status is the nonzero
code 1, and no rollback is performed: exactly the operations before the
failing one remain applied. -/
theorem init_term_error_propagation :
    ∀ (oracle : TermOp → Except IoError Unit) (k : Nat) (op : TermOp) (e : IoError),
      initTermOps[k]? = some op →
      oracle op = Except.error e →
      (∀ j q, j < k → initTermOps[j]? = some q → oracle q = Except.ok ()) →
      init_term oracle = (Except.error e, initTermOps.take k)
      ∧ (∀ (samples : Nat → ℚ) (drawO : Cell → Except IoError Unit),
          (main' oracle samples drawO).1 = MainResult.returns (Except.error e))
      ∧ (∀ (samples : Nat → ℚ) (drawO : Cell → Except IoError Unit),
          processExitCode (main' oracle samples drawO).1 = some 1) := by
  intro oracle k op e hop herr hpre
  have hinit : init_term oracle = (Except.error e, initTermOps.take k) := by
    rw [init_term, runTermOps_err initTermOps k [] op hop herr hpre]
    simp
  have h1 : (init_term oracle).1 = Except.error e := by rw [hinit]
  refine ⟨hinit, ?_, ?_⟩
  · intro samples drawO
    rw [main', h1]
  · intro samples drawO
    rw [main', h1]
    rfl

/-- C5 witness: an oracle failing at the very first operation
(`enable_raw_mode`): `init_term` returns that error having applied nothing,
and the process exits with status 1. -/
theorem init_term_error_propagation_witness :
    init_term (fun _ => Except.error (IoError.mk 5))
      = (Except.error (IoError.mk 5), initTermOps.take 0)
    ∧ processExitCode
        ((main' (fun _ => Except.error (IoError.mk 5)) (fun _ => 0)
          (fun _ => Except.ok ())).1) = some 1 := by
  have h := init_term_error_propagation (fun _ => Except.error (IoError.mk 5)) 0
    TermOp.enableRawMode (IoError.mk 5) rfl rfl
    (fun j q hj => absurd hj (Nat.not_lt_zero j))
  exact ⟨h.1, h.2.2 (fun _ => 0) (fun _ => Except.ok ())⟩

/-- C6: throughout the seeding pass, every cell in the `cells` vector lies in
bounds (`x < 200`, `y < 100`), the vector after `n + 1` visited coordinates
extends the vector after `n` (append-only growth: nothing is removed or
mutated), the vector is strictly increasing in lexicographic order (insertion
order = scan order), and after all 200×100 coordinates it equals the final
cell sequence. -/
theorem cells_bounded_append_only_sorted :
    ∀ (chance : ℚ) (samples : Nat → ℚ) (n : Nat),
      (∀ c ∈ cellsAfter chance samples n, c.x < WIDTH ∧ c.y < HEIGHT)
      ∧ (∃ t, cellsAfter chance samples n ++ t = cellsAfter chance samples (n + 1))
      ∧ List.Pairwise cellLexLt (cellsAfter chance samples n)
      ∧ cellsAfter chance samples (WIDTH * HEIGHT) = seedCells chance samples := by
  intro chance samples n
  refine ⟨?_, ?_, ?_, ?_⟩
  · intro c hc
    refine mem_seedPure_bounds hc ?_
    intro p hp
    exact mem_seedCoords.mp ((List.take_sublist n _).subset hp)
  · refine ⟨seedPure chance samples ((seedCoords WIDTH HEIGHT)[n]?.toList)
      (0 + ((seedCoords WIDTH HEIGHT).take n).length), ?_⟩
    rw [cellsAfter, cellsAfter, List.take_succ, seedPure_append]
  · exact pairwise_seedPure
      (List.Pairwise.sublist (List.take_sublist n _) (pairwise_seedCoords WIDTH HEIGHT))
  · rw [cellsAfter, seedCells, ← length_seedCoords WIDTH HEIGHT, List.take_length]

/-- C7: the code of `init_window` passes `std::ptr::null_mut()` as the
out-pointer of `GetConsoleScreenBufferInfo` (line 88), so that call can never
succeed: for every possible Win32 environment the function aborts (at the
scrollbar call or at the buffer-info call) and never reaches
`SetConsoleScreenBufferSize`; in particular it aborts even when every OS call
could succeed on a 120×30 buffer, where the claimed behaviour would be a
resize to 118×30. -/
theorem init_window_never_resizes :
    (∀ api : WinApi, init_window api = WinOutcome.abortScrollBar
      ∨ init_window api = WinOutcome.abortGetInfo)
    ∧ init_window (WinApi.mk true true (ScreenBufferInfo.mk 120 30) true)
        = WinOutcome.abortGetInfo := by
  refine ⟨?_, rfl⟩
  intro api
  by_cases h : api.showScrollBarOk
  · right
    simp [init_window, h, getConsoleScreenBufferInfo]
  · left
    simp [init_window, h]

/-- C8: when terminal initialization and the seeding pass complete without
error, `main` diverges in the idle loop (it never returns through the success
path, so there is no exit status), the cell sequence is exactly the seeded
one, and every idle iteration leaves the cells unchanged while sleeping a
fixed 1000 ms (total slept time after `n` iterations is `1000 * n`). -/
theorem idle_loop_runs_forever :
    ∀ (termO : TermOp → Except IoError Unit) (samples : Nat → ℚ)
      (drawO : Cell → Except IoError Unit),
      (∀ op, termO op = Except.ok ()) →
      (∀ c, drawO c = Except.ok ()) →
      (main' termO samples drawO).1 = MainResult.diverges
      ∧ (main' termO samples drawO).2 = seedCells SPAWN_CHANCE samples
      ∧ processExitCode (main' termO samples drawO).1 = none
      ∧ (∀ n, idleRun ((main' termO samples drawO).2, 0) n
          = ((main' termO samples drawO).2, 1000 * n)) := by
  intro termO samples drawO hterm hdraw
  have h := @main'_diverges termO samples drawO hterm hdraw
  refine ⟨by rw [h], by rw [h], by rw [h]; rfl, ?_⟩
  intro n
  rw [idleRun_closed]
  simp

/-- C8 witness: with every terminal operation and every draw succeeding,
`main` diverges. -/
theorem idle_loop_runs_forever_witness :
    (main' (fun _ => Except.ok ()) (fun _ => 0) (fun _ => Except.ok ())).1
      = MainResult.diverges :=
  (idle_loop_runs_forever (fun _ => Except.ok ()) (fun _ => 0) (fun _ => Except.ok ())
    (fun _ => rfl) (fun _ => rfl)).1

/-- C9: the spawn threshold is `(chance * 100) as i32`, truncation toward
zero, so every configured chance in `[0, 1%)` yields threshold 0; the spawn
comparison `rng < 0` is then false for every possible (nonnegative) random
sample, and the resulting cell sequence is empty, exactly as with a 0%
chance. -/
theorem sub_percent_chance_never_spawns :
    ∀ (chance : ℚ) (samples : Nat → ℚ),
      0 ≤ chance → chance < 1 / 100 →
      (∀ i, 0 ≤ samples i) →
      spawnThreshold chance = 0
      ∧ (∀ r : ℚ, 0 ≤ r → spawnDecision chance r = false)
      ∧ seedCells chance samples = [] := by
  intro chance samples h0 h1 hs
  have ht : spawnThreshold chance = 0 := spawnThreshold_zero_of_lt h0 h1
  refine ⟨ht, fun r hr => spawnDecision_false_of_threshold_zero ht hr, ?_⟩
  rw [seedCells, seedPure_no_spawn]
  intro j
  exact spawnDecision_false_of_threshold_zero ht (hs j)

/-- C9 witness: a 0.5% chance (`1/200`) yields threshold 0 and an empty cell
sequence. -/
theorem sub_percent_chance_never_spawns_witness :
    spawnThreshold (1 / 200) = 0 ∧ seedCells (1 / 200) (fun _ => 0) = [] := by
  have h := sub_percent_chance_never_spawns (1 / 200) (fun _ => 0)
    (by norm_num) (by norm_num) (fun _ => le_refl 0)
  exact ⟨h.1, h.2.2⟩

/-- C10: a spawned cell is drawn before it is appended, so if `draw_cell`
fails at the `k`-th scan coordinate (every earlier spawned coordinate drawing
fine), the seeding pass stops with that error, the cell sequence at that
moment is exactly the cells spawned at earlier coordinates, the failing
coordinate's cell is not in it, and `main` returns the error immediately with
that cell sequence. -/
theorem draw_failure_stops_seeding :
    ∀ (samples : Nat → ℚ) (draw : Cell → Except IoError Unit) (k : Nat)
      (p : Nat × Nat) (e : IoError),
      (seedCoords WIDTH HEIGHT)[k]? = some p →
      spawnDecision SPAWN_CHANCE (samples k) = true →
      draw (cellOfPair p) = Except.error e →
      (∀ j q, j < k → (seedCoords WIDTH HEIGHT)[j]? = some q →
        spawnDecision SPAWN_CHANCE (samples j) = true →
        draw (cellOfPair q) = Except.ok ()) →
      runSeed SPAWN_CHANCE samples draw
        = SeedOutcome.err e (cellsAfter SPAWN_CHANCE samples k)
      ∧ cellOfPair p ∉ cellsAfter SPAWN_CHANCE samples k
      ∧ (∀ termO : TermOp → Except IoError Unit, (∀ op, termO op = Except.ok ()) →
          (main' termO samples draw).1 = MainResult.returns (Except.error e)
          ∧ (main' termO samples draw).2 = cellsAfter SPAWN_CHANCE samples k) := by
  intro samples draw k p e hp hsp hdr hpre
  have hsp0 : spawnDecision SPAWN_CHANCE (samples (0 + k)) = true := by
    rw [Nat.zero_add]; exact hsp
  have hpre0 : ∀ j q, j < k → (seedCoords WIDTH HEIGHT)[j]? = some q →
      spawnDecision SPAWN_CHANCE (samples (0 + j)) = true →
      draw (cellOfPair q) = Except.ok () := by
    intro j q hj hq hs
    rw [Nat.zero_add] at hs
    exact hpre j q hj hq hs
  have hrun : runSeed SPAWN_CHANCE samples draw
      = SeedOutcome.err e (cellsAfter SPAWN_CHANCE samples k) := by
    rw [runSeed, runSeedAux_err (seedCoords WIDTH HEIGHT) k 0 [] p hp hsp0 hdr hpre0]
    rw [cellsAfter]
    simp
  have hnm : cellOfPair p ∉ cellsAfter SPAWN_CHANCE samples k := by
    intro hc
    exact not_mem_map_take_of_pairwise (pairwise_seedCoords WIDTH HEIGHT) hp
      ((seedPure_sublist SPAWN_CHANCE samples _ 0).subset hc)
  refine ⟨hrun, hnm, ?_⟩
  intro termO hterm
  have h1 : (init_term termO).1 = Except.ok () := by rw [init_term_ok hterm]
  constructor
  · rw [main', h1, hrun]
  · rw [main', h1, hrun]

/-- C10 witness: with every sample 0 (so every coordinate spawns) and a draw
oracle failing at the first cell `(0, 0)`, the seeding pass stops immediately
with the error and an empty cell sequence. -/
theorem draw_failure_stops_seeding_witness :
    runSeed SPAWN_CHANCE (fun _ => 0) (fun _ => Except.error (IoError.mk 1))
      = SeedOutcome.err (IoError.mk 1) (cellsAfter SPAWN_CHANCE (fun _ => 0) 0)
    ∧ cellOfPair (0, 0) ∉ cellsAfter SPAWN_CHANCE (fun _ => 0) 0 := by
  have h := draw_failure_stops_seeding (fun _ => 0)
    (fun _ => Except.error (IoError.mk 1)) 0 (0, 0) (IoError.mk 1)
    (seedCoords_head (by decide) (by decide)) spawnDecision_zero_sample rfl
    (fun j q hj => absurd hj (Nat.not_lt_zero j))
  exact ⟨h.1, h.2.1⟩
